import Mathlib

/-!
Shallow embedding of the sidica in-memory cache server (Rust) for claim
verification: the frame codec (src/frame.rs), the command-line tokenizer
(src/parse.rs), the command layer (src/commands.rs, src/commands/get.rs,
src/commands/set.rs), the cache engine (src/cache.rs), the identifier
generator (src/id_generator.rs) and the response serialization of
src/connection.rs.

Byte buffers are modelled as `List Nat` (each element a byte value);
Rust `String` values are modelled by their UTF-8 byte lists.  Machine
integers are `Nat` with explicit reductions modulo 2^32 / 2^64 where the
source performs wrapping u32/u64 arithmetic.  Rust panics (out-of-bounds
indexing, `unwrap` on `None`, arithmetic underflow) are modelled by a
dedicated `panic` result constructor.  Async functions are modelled as
state-passing functions; where the source creates a future and drops it
without awaiting it (so that the call has no effect at runtime), the
model faithfully performs no state change, with a comment at the spot.
-/

namespace Sidica

/-- ASCII byte list of a Lean string literal (used only for ASCII text). -/
def byteStr (s : String) : List Nat :=
  s.data.map Char.toNat

/-- Association-list lookup, modelling `BTreeMap::get` / `DashMap::get`:
the value stored under the first matching key, if any. -/
def alookup {κ α : Type} [DecidableEq κ] : List (κ × α) → κ → Option α
  | [], _ => none
  | (k0, v0) :: rest, k => if k0 = k then some v0 else alookup rest k

/-- Association-list insert, modelling `BTreeMap::insert` / `DashMap::insert`:
replaces the value under an existing key, otherwise adds a new entry. -/
def ainsert {κ α : Type} [DecidableEq κ] : List (κ × α) → κ → α → List (κ × α)
  | [], k, v => [(k, v)]
  | (k0, v0) :: rest, k, v =>
      if k0 = k then (k, v) :: rest else (k0, v0) :: ainsert rest k v

/-- The sub-slice `buf[a..b]` of a byte buffer (as in `&src.get_ref()[a..b]`). -/
def subslice (buf : List Nat) (a b : Nat) : List Nat :=
  (buf.drop a).take (b - a)

/-! ## Frame codec (src/frame.rs)

A `Cursor<&[u8]>` is modelled as the pair of its buffer and its position.
`anyhow::Error` values produced in frame.rs all carry the message
"Incomplete", so the error side of these functions is the single
`incomplete` signal. -/

/-- Result of a frame-codec operation: success or the "Incomplete" error
(the only error frame.rs ever constructs). -/
inductive FrameRes (α : Type) : Type
  | ok (a : α)
  | incomplete
  deriving DecidableEq

/-- First index `i` with `start ≤ i < stop`, `buf[i] = CR` and
`buf[i+1] = LF`; the scan loop of `get_line`.  Recursion is on the fuel
`stop - start`. -/
def findCRLFAux (buf : List Nat) (stop : Nat) : Nat → Nat → Option Nat
  | _, 0 => none
  | i, fuel + 1 =>
      if i < stop then
        if buf.getD i 0 = 13 ∧ buf.getD (i + 1) 0 = 10 then some i
        else findCRLFAux buf stop (i + 1) fuel
      else none

/-- Scan `buf` for a CRLF pair starting at index `start`, strictly below
index `stop`. -/
def findCRLF (buf : List Nat) (start stop : Nat) : Option Nat :=
  findCRLFAux buf stop start (stop - start)

/-- `get_line` (src/frame.rs): scan from the cursor position up to the
second-to-last byte for `"\r\n"`; on success return the line without the
terminator together with the cursor position placed after the `"\n"`.
Every caller in frame.rs reaches `get_line` only after `get_first_byte`
succeeded, so the buffer is nonempty and `len - 1` cannot underflow. -/
def getLine (buf : List Nat) (pos : Nat) : FrameRes (List Nat × Nat) :=
  match findCRLF buf pos (buf.length - 1) with
  | some i => .ok (subslice buf pos i, i + 2)
  | none => .incomplete

/-- `get_first_byte` (src/frame.rs): fails with "Incomplete" when the
cursor has no remaining bytes, otherwise returns the byte at the cursor
and advances the cursor by one (`get_u8`). -/
def getFirstByte (buf : List Nat) (pos : Nat) : FrameRes (Nat × Nat) :=
  if pos < buf.length then .ok (buf.getD pos 0, pos + 1) else .incomplete

/-- A parsed request frame (src/frame.rs): either a two-line storage
frame (command line + data line) or a single command line. -/
inductive RequestFrame : Type
  | storage (command_line : List Nat) (data : List Nat)
  | other (bytes : List Nat)
  deriving DecidableEq

/-- Whether a leading byte selects the two-line storage framing:
`b's' | b'a' | b'r' | b'p' | b'c'`. -/
def isStorageByte (b : Nat) : Bool :=
  b = 115 ∨ b = 97 ∨ b = 114 ∨ b = 112 ∨ b = 99

/-- `RequestFrame::check` (src/frame.rs): consume the first byte, then
scan one line (or two lines for a storage leading byte); on success
return the final cursor position. -/
def RequestFrame.check (buf : List Nat) (pos : Nat) : FrameRes Nat :=
  match getFirstByte buf pos with
  | .incomplete => .incomplete
  | .ok (b, pos1) =>
      if isStorageByte b then
        match getLine buf pos1 with
        | .incomplete => .incomplete
        | .ok (_, pos2) =>
            match getLine buf pos2 with
            | .incomplete => .incomplete
            | .ok (_, pos3) => .ok pos3
      else
        match getLine buf pos1 with
        | .incomplete => .incomplete
        | .ok (_, pos2) => .ok pos2

/-- `RequestFrame::parse` (src/frame.rs): same scan as `check`, but
materializing the lines.  Note that `get_first_byte` has already
advanced the cursor past the first byte when `get_line` starts scanning,
so the materialized command line starts at the second byte of the
frame. -/
def RequestFrame.parse (buf : List Nat) (pos : Nat) :
    FrameRes (RequestFrame × Nat) :=
  match getFirstByte buf pos with
  | .incomplete => .incomplete
  | .ok (b, pos1) =>
      if isStorageByte b then
        match getLine buf pos1 with
        | .incomplete => .incomplete
        | .ok (command_line, pos2) =>
            match getLine buf pos2 with
            | .incomplete => .incomplete
            | .ok (data, pos3) => .ok (.storage command_line data, pos3)
      else
        match getLine buf pos1 with
        | .incomplete => .incomplete
        | .ok (bytes, pos2) => .ok (.other bytes, pos2)

/-! ## Tokenizer (src/parse.rs)

`Parse` wraps a `Cursor<Bytes>` over one command line.  Operations that
can hit a Rust panic (integer underflow / out-of-bounds indexing) return
the dedicated `panic` constructor. -/

/-- `ParseError` (src/parse.rs).  The source spells the trailing-data
error `LineToLong`. -/
inductive ParseError : Type
  | endOfLine
  | lineToLong
  | stringErr
  | u32
  | u64
  deriving DecidableEq

/-- Result of a tokenizer operation: success, a `ParseError`, or a Rust
panic. -/
inductive PRes (α : Type) : Type
  | ok (a : α)
  | err (e : ParseError)
  | panic
  deriving DecidableEq

/-- The state of a `Parse` tokenizer: the command line and the cursor
position. -/
structure ParseState : Type where
  line : List Nat
  pos : Nat
  deriving DecidableEq

/-- Whether a byte is a UTF-8 continuation byte (`0x80..=0xBF`). -/
def isCont (b : Nat) : Bool :=
  128 ≤ b ∧ b ≤ 191

/-- UTF-8 validity of a byte list, as checked by `String::from_utf8`:
ASCII, two-, three- and four-byte sequences with the standard ranges,
rejecting overlong encodings, surrogates and values above U+10FFFF. -/
def utf8Valid : List Nat → Bool
  | [] => true
  | b :: rest =>
      if b ≤ 127 then utf8Valid rest
      else if 194 ≤ b ∧ b ≤ 223 then
        match rest with
        | b1 :: rest1 => isCont b1 && utf8Valid rest1
        | [] => false
      else if 224 ≤ b ∧ b ≤ 239 then
        match rest with
        | b1 :: b2 :: rest2 =>
            (if b = 224 then 160 ≤ b1 ∧ b1 ≤ 191
             else if b = 237 then 128 ≤ b1 ∧ b1 ≤ 159
             else isCont b1 = true : Bool) && isCont b2 && utf8Valid rest2
        | _ => false
      else if 240 ≤ b ∧ b ≤ 244 then
        match rest with
        | b1 :: b2 :: b3 :: rest3 =>
            (if b = 240 then 144 ≤ b1 ∧ b1 ≤ 191
             else if b = 244 then 128 ≤ b1 ∧ b1 ≤ 143
             else isCont b1 = true : Bool) && isCont b2 && isCont b3 &&
              utf8Valid rest3
        | _ => false
      else false

/-- First index `i` with `start ≤ i < stop` and `buf[i] = b' '`; the scan
loop of `Parse::next`. -/
def findSpaceAux (buf : List Nat) (stop : Nat) : Nat → Nat → Option Nat
  | _, 0 => none
  | i, fuel + 1 =>
      if i < stop then
        if buf.getD i 0 = 32 then some i
        else findSpaceAux buf stop (i + 1) fuel
      else none

/-- Scan `buf` for a space at an index in `[start, stop)`. -/
def findSpace (buf : List Nat) (start stop : Nat) : Option Nat :=
  findSpaceAux buf stop start (stop - start)

/-- `Parse::next` (src/parse.rs): scan from `position + 1` up to
`len - 1` for a space; on a hit, return the bytes from the old position
to the space and move the cursor past the space.  Otherwise, if the
position is inside the buffer, return the bytes up to the end of the
line — without moving the cursor.  On an empty line the source computes
`self.0.get_ref().len() - 1`, which underflows `usize` (and the
subsequent indexing is out of bounds), a panic. -/
def Parse.next (p : ParseState) : PRes (List Nat × ParseState) :=
  if p.line.length = 0 then .panic
  else
    match findSpace p.line (p.pos + 1) (p.line.length - 1) with
    | some i => .ok (subslice p.line p.pos i, ⟨p.line, i + 1⟩)
    | none =>
        if p.pos < p.line.length then
          .ok (subslice p.line p.pos p.line.length, p)
        else .err .endOfLine

/-- `Parse::next_string`: the next token decoded by `String::from_utf8`
(the model keeps the UTF-8 bytes as the string's representation). -/
def Parse.nextString (p : ParseState) : PRes (List Nat × ParseState) :=
  match Parse.next p with
  | .ok (bytes, p1) =>
      if utf8Valid bytes then .ok (bytes, p1) else .err .stringErr
  | .err e => .err e
  | .panic => .panic

/-- `atoi::<u32>` over ASCII bytes: requires a leading decimal digit,
accumulates digits with a checked bound of `2^32`, stops at the first
non-digit, returns `none` on an empty slice, a non-digit first byte or
overflow. -/
def atoiU32Aux : List Nat → Nat → Option Nat
  | [], acc => some acc
  | b :: rest, acc =>
      if 48 ≤ b ∧ b ≤ 57 then
        let acc1 := acc * 10 + (b - 48)
        if acc1 < 2 ^ 32 then atoiU32Aux rest acc1 else none
      else some acc

/-- `atoi::<u32>` on a token. -/
def atoiU32 (bytes : List Nat) : Option Nat :=
  match bytes with
  | [] => none
  | b :: _ => if 48 ≤ b ∧ b ≤ 57 then atoiU32Aux bytes 0 else none

/-- `Parse::next_u32`: the next token decoded by `atoi::<u32>`. -/
def Parse.nextU32 (p : ParseState) : PRes (Nat × ParseState) :=
  match Parse.next p with
  | .ok (bytes, p1) =>
      match atoiU32 bytes with
      | some n => .ok (n, p1)
      | none => .err .u32
  | .err e => .err e
  | .panic => .panic

/-- `Parse::complete` (src/parse.rs): whether the cursor position is
strictly greater than the line length. -/
def Parse.complete (p : ParseState) : Bool :=
  p.line.length < p.pos

/-- `Parse::finish` (src/parse.rs): `Ok(())` when the cursor position is
strictly greater than the line length, `Err(LineToLong)` otherwise. -/
def Parse.finish (p : ParseState) : PRes Unit :=
  if p.line.length < p.pos then .ok () else .err .lineToLong

/-! ## Identifier generator (src/id_generator.rs)

`Generator` holds the last-observed 32-bit truncated timestamp and the
per-second sequence counter.  `current_ts()` ("wall clock seconds
truncated `as u32`") is passed in as the `now` argument; the claims in
scope treat strictly sequential calls, so the two atomics reduce to
plain state fields. -/

/-- The `Generator` state: `ts` (last-observed truncated timestamp) and
`count` (sequence counter), both u32 values. -/
structure Generator : Type where
  ts : Nat
  count : Nat
  deriving DecidableEq

/-- `Generator::new`: stores the current truncated timestamp and a zero
counter. -/
def Generator.new (now : Nat) : Generator :=
  ⟨now % 2 ^ 32, 0⟩

/-- `Generator::combine`: big-endian concatenation of the two u32 values
into one u64, `(timestamp << 32) | count`. -/
def Generator.combine (timestamp count : Nat) : Nat :=
  (timestamp % 2 ^ 32) * 2 ^ 32 + count % 2 ^ 32

/-- `Generator::gen`: swap the stored timestamp with `now`; if unchanged,
fetch-and-add the counter (using the pre-increment value), else store 0
and use 0; combine timestamp and counter.  Returns the identifier and
the successor state. -/
def Generator.gen (g : Generator) (nowRaw : Nat) : Nat × Generator :=
  let now := nowRaw % 2 ^ 32
  if now = g.ts then
    (Generator.combine now g.count, ⟨now, (g.count + 1) % 2 ^ 32⟩)
  else
    (Generator.combine now 0, ⟨now, 0⟩)

/-- Outputs of a strictly sequential run of `gen` at the given clock
readings. -/
def Generator.genTrace : Generator → List Nat → List Nat
  | _, [] => []
  | g, t :: ts =>
      (Generator.gen g t).1 :: Generator.genTrace (Generator.gen g t).2 ts

/-! ## Cache engine (src/cache.rs)

`Cache` couples the identifier generator, the `BTreeMap<String, u64>`
index and the `DashMap<u64, MemoryItem>` record map.  Both maps are
modelled as association lists with `alookup` / `ainsert`.  Operations
that `unwrap` a record lookup return `panic` when the record is
absent. -/

/-- The external `Item` view (src/cache.rs). -/
structure Item : Type where
  key : List Nat
  flags : Nat
  cas : Nat
  expiration : Option Nat
  data : List Nat
  deriving DecidableEq

/-- The stored record `MemoryItem` (src/cache.rs): an `Item` without the
key. -/
structure MemoryItem : Type where
  flags : Nat
  expiration : Option Nat
  cas : Nat
  data : List Nat
  deriving DecidableEq

/-- Success-or-panic result of a cache operation (`unwrap` on a missing
record is the panic). -/
inductive Res (α : Type) : Type
  | ok (a : α)
  | panic
  deriving DecidableEq

/-- The `Cache` state (src/cache.rs). -/
structure Cache : Type where
  id : Generator
  index : List (List Nat × Nat)
  cache : List (Nat × MemoryItem)
  deriving DecidableEq

/-- `Cache::new`: a fresh generator (constructed at clock reading `now`)
and empty maps. -/
def Cache.new (now : Nat) : Cache :=
  ⟨Generator.new now, [], []⟩

/-- `Cache::get` (src/cache.rs): look the key up in the index; if an
identifier is present, look the record up in the concurrent map —
`.unwrap()`, a panic if absent — and rebuild an `Item` carrying the
caller's key; otherwise return `None`. -/
def Cache.get (c : Cache) (key : List Nat) : Res (Option Item) :=
  match alookup c.index key with
  | some id =>
      match alookup c.cache id with
      | some item =>
          .ok (some ⟨key, item.flags, item.cas, item.expiration, item.data⟩)
      | none => .panic
  | none => .ok none

/-- `Cache::set` (src/cache.rs): for an existing key, read the current
CAS of the stored record (`.unwrap()`, a panic if absent), overwrite the
record at the same identifier with `cas + 1` (wrapping u64), and return
`false`; for a new key, draw a fresh identifier from the generator at
clock reading `now`, insert the index entry and a record with `cas = 0`,
and return `true`. -/
def Cache.set (c : Cache) (now : Nat) (key : List Nat) (flags : Nat)
    (expiration : Option Nat) (data : List Nat) : Res (Bool × Cache) :=
  match alookup c.index key with
  | some id =>
      match alookup c.cache id with
      | some old =>
          .ok (false,
            { c with
              cache := ainsert c.cache id
                ⟨flags, expiration, (old.cas + 1) % 2 ^ 64, data⟩ })
      | none => .panic
  | none =>
      let r := Generator.gen c.id now
      .ok (true,
        ⟨r.2, ainsert c.index key r.1,
          ainsert c.cache r.1 ⟨flags, expiration, 0, data⟩⟩)

/-- The cache carried inside an `ok` set-result, with a default for the
panic case; used to chain concrete executions in closed statements. -/
def resCache (r : Res (Bool × Cache)) (d : Cache) : Cache :=
  match r with
  | .ok (_, c) => c
  | .panic => d

/-- The part of the spec's cache invariant that the code maintains:
every identifier present in the index has a stored record in the
concurrent map, and the record map holds at most one record per
identifier. -/
def CacheInv (c : Cache) : Prop :=
  (∀ e ∈ c.index, (alookup c.cache e.2).isSome = true) ∧
  (c.cache.map Prod.fst).Nodup

/-! ## Response frames and their serialization (src/frame.rs,
src/connection.rs)

`Connection::write_value` serializes a `ResponseFrame` onto the stream;
the model collects the written bytes.  The source writes the `Value`
header fields back to back with `write_all`, without separators — the
model reproduces that byte-for-byte. -/

/-- `ResponseFrame` (src/frame.rs). -/
inductive ResponseFrame : Type
  | value (key : List Nat) (flags : Nat) (data_length : Nat)
      (cas : Option Nat) (data : List Nat)
  | crement (n : Nat)
  | deleted
  | stored
  | touched
  | notFound
  | notStored
  | existsFrame
  | clientError (msg : List Nat)
  | serverError (msg : List Nat)
  | error
  deriving DecidableEq

/-- ASCII decimal digits of `n` (`to_string` on an unsigned integer),
with the usual fuel-indexed division loop. -/
def decDigitsAux : Nat → Nat → List Nat → List Nat
  | 0, _, acc => acc
  | fuel + 1, n, acc =>
      if n < 10 then (48 + n) :: acc
      else decDigitsAux fuel (n / 10) ((48 + n % 10) :: acc)

/-- ASCII decimal representation of `n`. -/
def decDigits (n : Nat) : List Nat :=
  decDigitsAux (n + 1) n []

/-- `Connection::write_value` (src/connection.rs): the bytes written for
one response frame, including the final `"\r\n"` appended after the
match. -/
def writeValue : ResponseFrame → List Nat
  | .value key flags data_length cas data =>
      byteStr "VALUE" ++ key ++ decDigits flags ++ decDigits data_length ++
        (match cas with
         | some c => decDigits c
         | none => []) ++ byteStr "\r\n" ++ data ++ byteStr "\r\n"
  | .crement n => decDigits n ++ byteStr "\r\n"
  | .clientError msg => byteStr "CLIENT_ERROR " ++ msg ++ byteStr "\r\n"
  | .serverError msg => byteStr "SERVER_ERROR " ++ msg ++ byteStr "\r\n"
  | .deleted => byteStr "DELETED\r\n"
  | .stored => byteStr "STORED\r\n"
  | .notStored => byteStr "NOT_STORED\r\n"
  | .touched => byteStr "TOUCHED\r\n"
  | .existsFrame => byteStr "EXISTS\r\n"
  | .notFound => byteStr "NOT_FOUND\r\n"
  | .error => byteStr "ERROR\r\n"

/-! ## Commands (src/commands.rs, src/commands/get.rs,
src/commands/set.rs)

`Get::parse_frame` contains a `while !parse.complete()` loop; the model
indexes it by fuel, with `none` meaning the loop has not terminated
within the given fuel (for any fuel). -/

/-- The `Get` command: its parsed key list. -/
structure GetCmd : Type where
  keys : List (List Nat)
  deriving DecidableEq

/-- The `Set` command (src/commands/set.rs). -/
structure SetCmd : Type where
  key : List Nat
  flags : Nat
  cas : Nat
  expiration : Option Nat
  data : List Nat
  deriving DecidableEq

/-- The loop of `Get::parse_frame`: while the tokenizer is not
`complete()`, push `next_string()` onto the key list.  `none` = the
fuel ran out before the loop exited. -/
def GetCmd.parseFrameAux :
    Nat → ParseState → List (List Nat) → Option (PRes (GetCmd × ParseState))
  | 0, _, _ => none
  | fuel + 1, p, keys =>
      if Parse.complete p then some (.ok (⟨keys⟩, p))
      else
        match Parse.nextString p with
        | .ok (k, p1) => GetCmd.parseFrameAux fuel p1 (keys ++ [k])
        | .err e => some (.err e)
        | .panic => some .panic

/-- `Get::parse_frame` (src/commands/get.rs): one mandatory key, then
the `complete()`-guarded loop. -/
def GetCmd.parseFrame (fuel : Nat) (p : ParseState) :
    Option (PRes (GetCmd × ParseState)) :=
  match Parse.nextString p with
  | .ok (k, p1) => GetCmd.parseFrameAux fuel p1 [k]
  | .err e => some (.err e)
  | .panic => some .panic

/-- `Set::parse_frame` (src/commands/set.rs): key, flags, expiration and
a data-length field that is read and discarded; the already-separated
data line is passed through untouched and `cas` starts at 0. -/
def SetCmd.parseFrame (p : ParseState) (data : List Nat) :
    PRes (SetCmd × ParseState) :=
  match Parse.nextString p with
  | .ok (key, p1) =>
      match Parse.nextU32 p1 with
      | .ok (flags, p2) =>
          match Parse.nextU32 p2 with
          | .ok (expiration, p3) =>
              match Parse.nextU32 p3 with
              | .ok (_, p4) => .ok (⟨key, flags, 0, some expiration, data⟩, p4)
              | .err e => .err e
              | .panic => .panic
          | .err e => .err e
          | .panic => .panic
      | .err e => .err e
      | .panic => .panic
  | .err e => .err e
  | .panic => .panic

/-- A parsed command (src/commands.rs). -/
inductive Command : Type
  | get (g : GetCmd)
  | set (s : SetCmd)
  deriving DecidableEq

/-- Result of `Command::from_frame`: a command, a tokenizer error, the
`CommandError::Unknown` rejection, or a panic. -/
inductive CmdRes : Type
  | ok (c : Command)
  | parseErr (e : ParseError)
  | unknown
  | panic
  deriving DecidableEq

/-- `Command::from_frame` (src/commands.rs): tokenize the command line,
read the command name, dispatch on `"get"` / `"set"` (anything else is
`Unknown`), then `finish()` the tokenizer.  `none` = the key-reading
loop of `Get::parse_frame` ran out of fuel. -/
def Command.fromFrame (fuel : Nat) (frame : RequestFrame) : Option CmdRes :=
  match frame with
  | .other bytes =>
      match Parse.nextString ⟨bytes, 0⟩ with
      | .panic => some .panic
      | .err e => some (.parseErr e)
      | .ok (name, p1) =>
          if name = byteStr "get" then
            match GetCmd.parseFrame fuel p1 with
            | none => none
            | some .panic => some .panic
            | some (.err e) => some (.parseErr e)
            | some (.ok (g, p2)) =>
                match Parse.finish p2 with
                | .ok _ => some (.ok (.get g))
                | .err e => some (.parseErr e)
                | .panic => some .panic
          else some .unknown
  | .storage command_line data =>
      match Parse.nextString ⟨command_line, 0⟩ with
      | .panic => some .panic
      | .err e => some (.parseErr e)
      | .ok (name, p1) =>
          if name = byteStr "set" then
            match SetCmd.parseFrame p1 data with
            | .panic => some .panic
            | .err e => some (.parseErr e)
            | .ok (s, p2) =>
                match Parse.finish p2 with
                | .ok _ => some (.ok (.set s))
                | .err e => some (.parseErr e)
                | .panic => some .panic
          else some .unknown

/-- The loop of `Get::apply` (src/commands/get.rs) over two or more
keys: each key is looked up (`cache.get(&key).await`, which can panic on
a broken record map), but the hit branch builds its `Value` frame and
calls `dst.write(frame)` without `.await` — the returned future is
dropped unpolled, so nothing is ever appended to the stream here. -/
def GetCmd.applyLoop (c : Cache) : List (List Nat) → Res Unit
  | [] => .ok ()
  | k :: ks =>
      match Cache.get c k with
      | .panic => .panic
      | .ok _ => GetCmd.applyLoop c ks

/-- `Get::apply` (src/commands/get.rs): with exactly one key, a hit is
written with `write_and_end` (the `Value` bytes followed by `"END\r\n"`)
and a miss returns with nothing written; with any other number of keys,
the loop above runs and then `end_and_flush` writes `"END\r\n"`.
Returns the bytes appended to the connection's stream. -/
def GetCmd.apply (g : GetCmd) (c : Cache) (out : List Nat) : Res (List Nat) :=
  match g.keys with
  | [key] =>
      match Cache.get c key with
      | .panic => .panic
      | .ok (some item) =>
          .ok (out ++
            writeValue (.value key item.flags item.data.length none item.data) ++
            byteStr "END\r\n")
      | .ok none => .ok out
  | keys =>
      match GetCmd.applyLoop c keys with
      | .panic => .panic
      | .ok _ => .ok (out ++ byteStr "END\r\n")

/-- `Set::apply` (src/commands/set.rs): the source calls
`cache.set(self.key, self.flags, self.expiration, self.data)` without
`.await`; the future is dropped before being polled, so the store never
executes and the cache is returned unchanged.  The `Stored` response is
then written with `write_and_flush`. -/
def SetCmd.apply (_s : SetCmd) (c : Cache) (out : List Nat) :
    Cache × List Nat :=
  (c, out ++ writeValue .stored)

/-! ## Helper lemmas about the association-list maps -/

theorem alookup_ainsert_self {κ α : Type} [DecidableEq κ]
    (l : List (κ × α)) (k : κ) (v : α) :
    alookup (ainsert l k v) k = some v := by
  induction l with
  | nil => simp [ainsert, alookup]
  | cons hd tl ih =>
      obtain ⟨k0, v0⟩ := hd
      by_cases h : k0 = k
      · simp [ainsert, alookup, h]
      · simp [ainsert, alookup, h, ih]

theorem alookup_ainsert_ne {κ α : Type} [DecidableEq κ]
    (l : List (κ × α)) (k k1 : κ) (v : α) (h : k1 ≠ k) :
    alookup (ainsert l k v) k1 = alookup l k1 := by
  have hky : ¬k = k1 := fun he => h he.symm
  induction l with
  | nil => simp [ainsert, alookup, hky]
  | cons hd tl ih =>
      obtain ⟨k0, v0⟩ := hd
      by_cases h0 : k0 = k
      · subst h0
        simp [ainsert, alookup, hky]
      · by_cases h1 : k0 = k1
        · subst h1
          simp [ainsert, alookup, h0]
        · simp [ainsert, alookup, h0, h1, ih]

theorem alookup_mem {κ α : Type} [DecidableEq κ]
    (l : List (κ × α)) (k : κ) (v : α) (h : alookup l k = some v) :
    (k, v) ∈ l := by
  induction l with
  | nil => simp [alookup] at h
  | cons hd tl ih =>
      obtain ⟨k0, v0⟩ := hd
      by_cases h0 : k0 = k
      · subst h0
        simp [alookup] at h
        simp [h]
      · simp [alookup, h0] at h
        exact List.mem_cons_of_mem _ (ih h)

theorem mem_ainsert {κ α : Type} [DecidableEq κ]
    (l : List (κ × α)) (k : κ) (v : α) (e : κ × α)
    (h : e ∈ ainsert l k v) : e = (k, v) ∨ e ∈ l := by
  induction l with
  | nil => simpa [ainsert] using h
  | cons hd tl ih =>
      obtain ⟨k0, v0⟩ := hd
      by_cases h0 : k0 = k
      · simp only [ainsert, if_pos h0] at h
        rcases List.mem_cons.mp h with h1 | h1
        · exact Or.inl h1
        · exact Or.inr (List.mem_cons_of_mem _ h1)
      · simp only [ainsert, if_neg h0] at h
        rcases List.mem_cons.mp h with h1 | h1
        · exact Or.inr (h1 ▸ List.mem_cons_self _ _)
        · rcases ih h1 with h2 | h2
          · exact Or.inl h2
          · exact Or.inr (List.mem_cons_of_mem _ h2)

theorem isSome_alookup_ainsert {κ α : Type} [DecidableEq κ]
    (l : List (κ × α)) (k k1 : κ) (v : α)
    (h : (alookup l k1).isSome = true) :
    (alookup (ainsert l k v) k1).isSome = true := by
  by_cases h1 : k1 = k
  · subst h1
    rw [alookup_ainsert_self]
    rfl
  · rw [alookup_ainsert_ne _ _ _ _ h1]
    exact h

theorem mem_keys_ainsert {κ α : Type} [DecidableEq κ]
    (l : List (κ × α)) (k : κ) (v : α) (a : κ)
    (h : a ∈ (ainsert l k v).map Prod.fst) :
    a = k ∨ a ∈ l.map Prod.fst := by
  rcases List.mem_map.mp h with ⟨e, he, hea⟩
  rcases mem_ainsert _ _ _ _ he with h1 | h1
  · left
    rw [← hea, h1]
  · right
    exact List.mem_map.mpr ⟨e, h1, hea⟩

theorem nodup_keys_ainsert {κ α : Type} [DecidableEq κ]
    (l : List (κ × α)) (k : κ) (v : α)
    (h : (l.map Prod.fst).Nodup) :
    ((ainsert l k v).map Prod.fst).Nodup := by
  induction l with
  | nil => simp [ainsert]
  | cons hd tl ih =>
      obtain ⟨k0, v0⟩ := hd
      rw [List.map_cons, List.nodup_cons] at h
      by_cases h0 : k0 = k
      · subst h0
        simp only [ainsert, if_true, eq_self_iff_true, List.map_cons,
          List.nodup_cons]
        exact h
      · simp only [ainsert, if_neg h0, List.map_cons, List.nodup_cons]
        refine ⟨?_, ih h.2⟩
        intro hmem
        rcases mem_keys_ainsert _ _ _ _ hmem with h1 | h1
        · exact h0 h1
        · exact h.1 h1

/-! ## Helper lemmas about the frame codec -/

theorem findCRLFAux_some (buf : List Nat) (stop : Nat) :
    ∀ fuel i j, findCRLFAux buf stop i fuel = some j →
      i ≤ j ∧ j < stop ∧ buf.getD j 0 = 13 ∧ buf.getD (j + 1) 0 = 10 := by
  intro fuel
  induction fuel with
  | zero =>
      intro i j h
      simp [findCRLFAux] at h
  | succ n ih =>
      intro i j h
      simp only [findCRLFAux] at h
      by_cases h1 : i < stop
      · rw [if_pos h1] at h
        by_cases h2 : buf.getD i 0 = 13 ∧ buf.getD (i + 1) 0 = 10
        · rw [if_pos h2] at h
          cases h
          exact ⟨Nat.le_refl _, h1, h2.1, h2.2⟩
        · rw [if_neg h2] at h
          obtain ⟨h3, h4, h5, h6⟩ := ih (i + 1) j h
          exact ⟨Nat.le_of_succ_le h3, h4, h5, h6⟩
      · rw [if_neg h1] at h
        cases h

theorem getLine_ok (buf : List Nat) (pos : Nat) (line : List Nat) (p1 : Nat)
    (h : getLine buf pos = .ok (line, p1)) :
    pos + 2 ≤ p1 ∧ p1 ≤ buf.length ∧
      buf.getD (p1 - 2) 0 = 13 ∧ buf.getD (p1 - 1) 0 = 10 := by
  unfold getLine findCRLF at h
  cases hf : findCRLFAux buf (buf.length - 1) pos (buf.length - 1 - pos) with
  | none => rw [hf] at h; cases h
  | some j =>
      rw [hf] at h
      obtain ⟨h3, h4, h5, h6⟩ :=
        findCRLFAux_some buf (buf.length - 1) (buf.length - 1 - pos) pos j hf
      cases h
      refine ⟨by omega, by omega, ?_, ?_⟩
      · simpa using h5
      · simpa using h6

theorem parse_of_check (buf : List Nat) (pos p : Nat)
    (h : RequestFrame.check buf pos = .ok p) :
    ∃ fr, RequestFrame.parse buf pos = .ok (fr, p) := by
  unfold RequestFrame.check at h
  unfold RequestFrame.parse
  cases hfb : getFirstByte buf pos with
  | incomplete => rw [hfb] at h; cases h
  | ok bp =>
      obtain ⟨b, pos1⟩ := bp
      rw [hfb] at h
      by_cases hs : isStorageByte b = true
      · simp only [hs, if_true] at h ⊢
        cases hg1 : getLine buf pos1 with
        | incomplete => rw [hg1] at h; cases h
        | ok lp1 =>
            obtain ⟨l1, pos2⟩ := lp1
            rw [hg1] at h
            dsimp only at h ⊢
            cases hg2 : getLine buf pos2 with
            | incomplete => rw [hg2] at h; cases h
            | ok lp2 =>
                obtain ⟨l2, pos3⟩ := lp2
                rw [hg2] at h
                dsimp only at h ⊢
                cases h
                exact ⟨.storage l1 l2, rfl⟩
      · simp only [hs, if_false, Bool.false_eq_true] at h ⊢
        cases hg1 : getLine buf pos1 with
        | incomplete => rw [hg1] at h; cases h
        | ok lp1 =>
            obtain ⟨l1, pos2⟩ := lp1
            rw [hg1] at h
            dsimp only at h ⊢
            cases h
            exact ⟨.other l1, rfl⟩

theorem check_ok_pos (buf : List Nat) (p : Nat)
    (h : RequestFrame.check buf 0 = .ok p) :
    3 ≤ p ∧ p ≤ buf.length ∧
      buf.getD (p - 2) 0 = 13 ∧ buf.getD (p - 1) 0 = 10 := by
  unfold RequestFrame.check at h
  cases hfb : getFirstByte buf 0 with
  | incomplete => rw [hfb] at h; cases h
  | ok bp =>
      obtain ⟨b, pos1⟩ := bp
      rw [hfb] at h
      have hpos1 : pos1 = 1 := by
        unfold getFirstByte at hfb
        by_cases h0 : 0 < buf.length
        · rw [if_pos h0] at hfb
          cases hfb
          rfl
        · rw [if_neg h0] at hfb
          cases hfb
      subst hpos1
      by_cases hs : isStorageByte b = true
      · simp only [hs, if_true] at h
        cases hg1 : getLine buf 1 with
        | incomplete => rw [hg1] at h; cases h
        | ok lp1 =>
            obtain ⟨l1, pos2⟩ := lp1
            rw [hg1] at h
            dsimp only at h
            cases hg2 : getLine buf pos2 with
            | incomplete => rw [hg2] at h; cases h
            | ok lp2 =>
                obtain ⟨l2, pos3⟩ := lp2
                rw [hg2] at h
                dsimp only at h
                injection h with hp
                obtain ⟨ha, hb, _, _⟩ := getLine_ok buf 1 l1 pos2 hg1
                obtain ⟨hc, hd, he, hf⟩ := getLine_ok buf pos2 l2 pos3 hg2
                subst hp
                exact ⟨by omega, hd, he, hf⟩
      · simp only [hs, if_false, Bool.false_eq_true] at h
        cases hg1 : getLine buf 1 with
        | incomplete => rw [hg1] at h; cases h
        | ok lp1 =>
            obtain ⟨l1, pos2⟩ := lp1
            rw [hg1] at h
            dsimp only at h
            injection h with hp
            obtain ⟨ha, hb, hc, hd⟩ := getLine_ok buf 1 l1 pos2 hg1
            subst hp
            exact ⟨by omega, hb, hc, hd⟩

/-! ## The index/record invariant of the cache -/

theorem cacheInv_lookup {c : Cache} {key : List Nat} {id : Nat}
    (hinv : CacheInv c) (hidx : alookup c.index key = some id) :
    ∃ mi, alookup c.cache id = some mi := by
  have hmem := alookup_mem _ _ _ hidx
  have hsome := hinv.1 (key, id) hmem
  exact Option.isSome_iff_exists.mp hsome

/-! ## Claim theorems -/

/-- C1: applying a parsed `Set` command to the shared cache leaves the
cache completely unchanged — the source drops the `cache.set(...)`
future without awaiting it — while still writing the single response
line `STORED\r\n`; in particular a subsequent `get` of the just-"stored"
key still returns `None`, contradicting the claim that the item is
stored and retrievable. -/
theorem set_apply_does_not_store :
    SetCmd.apply ⟨byteStr "k", 5, 0, some 0, byteStr "hi"⟩ (Cache.new 0) [] =
      (Cache.new 0, byteStr "STORED\r\n") ∧
    Cache.get (Cache.new 0) (byteStr "k") = .ok none := by
  decide

/-- C4: the generator built at clock second 0 and then called twice,
strictly sequentially, at clock second 1 returns the identifier
`4294967296` twice — the two consecutive calls within the same second
differ by 0, not by exactly 1, because the new-second branch stores
sequence 0 after also using 0.  The `combine` example of the claim does
hold: combining timestamp 1 with sequence 5 yields 4294967301. -/
theorem generator_duplicate_id :
    Generator.genTrace (Generator.new 0) [1, 1] = [4294967296, 4294967296] ∧
    Generator.combine 1 5 = 4294967301 := by
  decide

/-- C6: on the input bytes `"set k 0 0 2\r\nhi\r\n"`, `check` succeeds
with the cursor at 17 and `parse` materializes a `Storage` frame — but
its command line is `"et k 0 0 2"`, not `"set k 0 0 2"`:
`get_first_byte` consumes the leading byte with `get_u8`, so the
materialized command line always misses the first byte of the frame. -/
theorem parse_drops_first_byte :
    RequestFrame.check (byteStr "set k 0 0 2\r\nhi\r\n") 0 = .ok 17 ∧
    RequestFrame.parse (byteStr "set k 0 0 2\r\nhi\r\n") 0 =
      .ok (.storage (byteStr "et k 0 0 2") (byteStr "hi"), 17) := by
  decide

/-- C8: tokenizing the well-formed command line `"set k 0 0 2"` consumes
its five tokens, ending at cursor position 10 (the final token is
returned without advancing the cursor), and `finish()` then fails with
`LineToLong` even though the whole line has been consumed — the cursor
can never exceed the line length, so `finish()` never returns `Ok`; via
`Command::from_frame` the whole storage frame is rejected with the same
error. -/
theorem finish_rejects_consumed_line :
    Parse.next ⟨byteStr "set k 0 0 2", 0⟩ =
      .ok (byteStr "set", ⟨byteStr "set k 0 0 2", 4⟩) ∧
    Parse.next ⟨byteStr "set k 0 0 2", 4⟩ =
      .ok (byteStr "k", ⟨byteStr "set k 0 0 2", 6⟩) ∧
    Parse.next ⟨byteStr "set k 0 0 2", 6⟩ =
      .ok (byteStr "0", ⟨byteStr "set k 0 0 2", 8⟩) ∧
    Parse.next ⟨byteStr "set k 0 0 2", 8⟩ =
      .ok (byteStr "0", ⟨byteStr "set k 0 0 2", 10⟩) ∧
    Parse.next ⟨byteStr "set k 0 0 2", 10⟩ =
      .ok (byteStr "2", ⟨byteStr "set k 0 0 2", 10⟩) ∧
    Parse.finish ⟨byteStr "set k 0 0 2", 10⟩ = .err .lineToLong ∧
    Command.fromFrame 0 (.storage (byteStr "set k 0 0 2") (byteStr "hi")) =
      some (.parseErr .lineToLong) := by
  decide

/-- C9: with `a → "1"` and `b → "2"` genuinely stored in the cache (both
`get`s hit), a multi-key GET for `["a", "b", "c"]` writes only the
single line `END\r\n` — no `VALUE` line at all — because the loop in
`Get::apply` drops the `dst.write(frame)` future without awaiting
it. -/
theorem multiget_writes_no_values :
    (let c0 := Cache.new 0
     let c1 := resCache
       (Cache.set c0 0 (byteStr "a") 3 none (byteStr "1")) c0
     let cab := resCache
       (Cache.set c1 0 (byteStr "b") 4 none (byteStr "2")) c1
     Cache.get cab (byteStr "a") =
        .ok (some ⟨byteStr "a", 3, 0, none, byteStr "1"⟩) ∧
     Cache.get cab (byteStr "b") =
        .ok (some ⟨byteStr "b", 4, 0, none, byteStr "2"⟩) ∧
     GetCmd.apply ⟨[byteStr "a", byteStr "b", byteStr "c"]⟩ cab [] =
        .ok (byteStr "END\r\n")) := by
  decide

/-- C10: `Parse::next` is not total — on the empty command line the
`len() - 1` subtraction underflows and the scan indexes out of bounds, a
panic.  The empty command line is reachable: `parse` turns the minimal
frame `"x\r\n"` into `Other("")` (the first byte is consumed by
`get_first_byte`), and `Command::from_frame` on that frame panics inside
`next_string`. -/
theorem next_panics_on_empty_line :
    Parse.next ⟨[], 0⟩ = .panic ∧
    RequestFrame.parse (byteStr "x\r\n") 0 = .ok (.other [], 3) ∧
    Command.fromFrame 0 (.other []) = some .panic := by
  decide

/-- C7: `Get::parse_frame` does not terminate on the command line
`"get k"` with the command name already consumed (cursor 4): `next()`
returns the final key without advancing the cursor and `complete()`
(`position > len`) never becomes true, so the key-reading loop runs
forever — for every fuel bound the loop fails to exit. -/
theorem get_parse_frame_nonterminating :
    ∀ fuel : Nat, GetCmd.parseFrame fuel ⟨byteStr "get k", 4⟩ = none := by
  have hns : Parse.nextString ⟨byteStr "get k", 4⟩ =
      .ok (byteStr "k", ⟨byteStr "get k", 4⟩) := by decide
  have hcomp : Parse.complete ⟨byteStr "get k", 4⟩ = false := by decide
  have haux : ∀ (fuel : Nat) (keys : List (List Nat)),
      GetCmd.parseFrameAux fuel ⟨byteStr "get k", 4⟩ keys = none := by
    intro fuel
    induction fuel with
    | zero => intro keys; rfl
    | succ n ih =>
        intro keys
        simp only [GetCmd.parseFrameAux, hcomp, Bool.false_eq_true, if_false,
          hns]
        exact ih _
  intro fuel
  simp only [GetCmd.parseFrame, hns]
  exact haux fuel _

/-- C5: `check` on `"GET k"` (no trailing CRLF) fails with the
designated `Incomplete` signal (the only error the codec ever emits);
on `"GET k\r\n"` it succeeds with the cursor at position 7; and in
general, whenever `check` succeeds, the final cursor sits exactly at the
end of the recognized frame: `parse` on the same buffer materializes a
frame ending at the same position, which is inside the buffer and
immediately preceded by the terminating `"\r\n"`. -/
theorem frame_check_cursor_spec :
    RequestFrame.check (byteStr "GET k") 0 = .incomplete ∧
    RequestFrame.check (byteStr "GET k\r\n") 0 = .ok 7 ∧
    ∀ (buf : List Nat) (p : Nat), RequestFrame.check buf 0 = .ok p →
      (∃ fr, RequestFrame.parse buf 0 = .ok (fr, p)) ∧
      3 ≤ p ∧ p ≤ buf.length ∧
      buf.getD (p - 2) 0 = 13 ∧ buf.getD (p - 1) 0 = 10 :=
  ⟨by decide, by decide,
    fun buf p h => ⟨parse_of_check buf 0 p h, check_ok_pos buf p h⟩⟩

/-- Witness for C5: the general cursor property instantiated on the
concrete complete frame `"GET k\r\n"` with final position 7. -/
theorem frame_check_cursor_spec_witness :
    (∃ fr, RequestFrame.parse (byteStr "GET k\r\n") 0 = .ok (fr, 7)) ∧
    3 ≤ 7 ∧ 7 ≤ (byteStr "GET k\r\n").length ∧
    (byteStr "GET k\r\n").getD (7 - 2) 0 = 13 ∧
    (byteStr "GET k\r\n").getD (7 - 1) 0 = 10 :=
  frame_check_cursor_spec.2.2 (byteStr "GET k\r\n") 7 (by decide)

/-- C2: the map semantics of `Cache::get` / `Cache::set` with CAS
versioning.  For a key absent from the index, `set` returns `true` and a
subsequent `get` returns an `Item` with that key, `cas = 0` and exactly
the given flags, expiration and data.  For a key already present (with
its record in the map, as the invariant guarantees, and the u64 CAS not
at its maximum), `set` returns `false`, leaves the index untouched and
replaces the stored values with the CAS bumped by exactly 1.  A key
absent from the index — in particular any key on a fresh cache, where no
key was ever set — reads as `None`. -/
theorem cache_set_get_spec :
    (∀ (c : Cache) (now : Nat) (key : List Nat) (flags : Nat)
        (exp : Option Nat) (data : List Nat),
        alookup c.index key = none →
        ∃ c2, Cache.set c now key flags exp data = .ok (true, c2) ∧
          Cache.get c2 key = .ok (some ⟨key, flags, 0, exp, data⟩)) ∧
    (∀ (c : Cache) (now : Nat) (key : List Nat) (flags : Nat)
        (exp : Option Nat) (data : List Nat) (id : Nat) (item : MemoryItem),
        alookup c.index key = some id → alookup c.cache id = some item →
        item.cas + 1 < 2 ^ 64 →
        ∃ c2, Cache.set c now key flags exp data = .ok (false, c2) ∧
          c2.index = c.index ∧
          Cache.get c2 key = .ok (some ⟨key, flags, item.cas + 1, exp, data⟩)) ∧
    (∀ (c : Cache) (key : List Nat), alookup c.index key = none →
        Cache.get c key = .ok none) ∧
    (∀ (t0 : Nat) (key : List Nat), Cache.get (Cache.new t0) key = .ok none) := by
  refine ⟨?_, ?_, ?_, ?_⟩
  · intro c now key flags exp data h
    refine ⟨⟨(Generator.gen c.id now).2,
        ainsert c.index key (Generator.gen c.id now).1,
        ainsert c.cache (Generator.gen c.id now).1 ⟨flags, exp, 0, data⟩⟩,
      ?_, ?_⟩
    · simp only [Cache.set, h]
    · simp only [Cache.get, alookup_ainsert_self]
  · intro c now key flags exp data id item hidx hitem hlt
    refine ⟨{ c with
      cache := ainsert c.cache id ⟨flags, exp, (item.cas + 1) % 2 ^ 64, data⟩ },
      ?_, rfl, ?_⟩
    · simp only [Cache.set, hidx, hitem]
    · simp only [Cache.get, hidx, alookup_ainsert_self,
        Nat.mod_eq_of_lt hlt]
  · intro c key h
    simp only [Cache.get, h]
  · intro t0 key
    rfl

/-- Witness for C2: create-then-read on a fresh cache with flags 7 and
data `"v1"` yields `cas = 0` and exactly the written values. -/
theorem cache_set_get_spec_witness :
    ∃ c2, Cache.set (Cache.new 0) 0 (byteStr "k") 7 none (byteStr "v1") =
        .ok (true, c2) ∧
      Cache.get c2 (byteStr "k") =
        .ok (some ⟨byteStr "k", 7, 0, none, byteStr "v1"⟩) :=
  cache_set_get_spec.1 (Cache.new 0) 0 (byteStr "k") 7 none (byteStr "v1")
    (by decide)

/-- C3 (counterexample): identifiers are not allocated at most once.
From a cache created at clock second 0, inserting key `"a"` at second 1
allocates identifier 4294967296, and inserting the distinct key `"b"`
still at second 1 allocates the same identifier 4294967296 again: both
index entries share one identifier, the record map holds a single
record, and reading key `"a"` now returns the flags and data written for
`"b"` — the stored record's identifier was allocated twice and reused,
violating the claimed invariant. -/
theorem cache_identifier_reuse :
    (let c0 := Cache.new 0
     let ca := resCache (Cache.set c0 1 (byteStr "a") 1 none (byteStr "1")) c0
     let cb := resCache (Cache.set ca 1 (byteStr "b") 2 none (byteStr "2")) ca
     alookup cb.index (byteStr "a") = some 4294967296 ∧
     alookup cb.index (byteStr "b") = some 4294967296 ∧
     cb.cache.length = 1 ∧
     Cache.get cb (byteStr "a") =
        .ok (some ⟨byteStr "a", 2, 0, none, byteStr "2"⟩)) := by
  decide

/-- C3 (amended): every cache operation preserves the invariant that
each identifier present in the index has a stored record in the
concurrent map (held at most once), and under this invariant the record
lookup inside `get` can never miss — so `get` never panics and `set`
never panics; the exactly-once / never-reused part of the claimed
invariant is dropped (refuted by the identifier-reuse
counterexample). -/
theorem cache_index_record_invariant :
    (∀ t0 : Nat, CacheInv (Cache.new t0)) ∧
    (∀ (c : Cache) (key : List Nat) (id : Nat), CacheInv c →
        alookup c.index key = some id →
        ∃ mi, alookup c.cache id = some mi) ∧
    (∀ (c : Cache) (key : List Nat), CacheInv c →
        ∃ r, Cache.get c key = .ok r) ∧
    (∀ (c : Cache) (now : Nat) (key : List Nat) (flags : Nat)
        (exp : Option Nat) (data : List Nat), CacheInv c →
        ∃ b c2, Cache.set c now key flags exp data = .ok (b, c2) ∧
          CacheInv c2) := by
  refine ⟨?_, ?_, ?_, ?_⟩
  · intro t0
    exact ⟨fun e he => absurd he (List.not_mem_nil e), List.nodup_nil⟩
  · intro c key id hinv hidx
    exact cacheInv_lookup hinv hidx
  · intro c key hinv
    cases hidx : alookup c.index key with
    | none => exact ⟨none, by simp only [Cache.get, hidx]⟩
    | some id =>
        obtain ⟨mi, hmi⟩ := cacheInv_lookup hinv hidx
        exact ⟨some ⟨key, mi.flags, mi.cas, mi.expiration, mi.data⟩,
          by simp only [Cache.get, hidx, hmi]⟩
  · intro c now key flags exp data hinv
    cases hidx : alookup c.index key with
    | some id =>
        obtain ⟨mi, hmi⟩ := cacheInv_lookup hinv hidx
        refine ⟨false, { c with
          cache := ainsert c.cache id ⟨flags, exp, (mi.cas + 1) % 2 ^ 64, data⟩ },
          ?_, ?_, ?_⟩
        · simp only [Cache.set, hidx, hmi]
        · intro e he
          by_cases hid : e.2 = id
          · rw [hid, alookup_ainsert_self]
            rfl
          · rw [alookup_ainsert_ne _ _ _ _ hid]
            exact hinv.1 e he
        · exact nodup_keys_ainsert _ _ _ hinv.2
    | none =>
        refine ⟨true, ⟨(Generator.gen c.id now).2,
            ainsert c.index key (Generator.gen c.id now).1,
            ainsert c.cache (Generator.gen c.id now).1
              ⟨flags, exp, 0, data⟩⟩, ?_, ?_, ?_⟩
        · simp only [Cache.set, hidx]
        · intro e he
          rcases mem_ainsert _ _ _ _ he with h1 | h1
          · subst h1
            rw [alookup_ainsert_self]
            rfl
          · exact isSome_alookup_ainsert _ _ _ _ (hinv.1 e h1)
        · exact nodup_keys_ainsert _ _ _ hinv.2

/-- Witness for C3: the preservation statement applied on a fresh cache
(whose invariant is the first conjunct of the theorem itself). -/
theorem cache_index_record_invariant_witness :
    ∃ b c2, Cache.set (Cache.new 0) 0 (byteStr "k") 7 none (byteStr "v1") =
        .ok (b, c2) ∧ CacheInv c2 :=
  cache_index_record_invariant.2.2.2 (Cache.new 0) 0 (byteStr "k") 7 none
    (byteStr "v1") (cache_index_record_invariant.1 0)

end Sidica

